import Mathlib

/-!
Verification of the agentic-RAG chat service core.

This file gives a shallow embedding of the request-scoped retrieval and
conversation-turn logic of the repository (`agent/db_utils.py`,
`agent/api.py`, `agent/models.py`, `agent/security.py`) and proves the
specified properties about it.  Scores and timestamps are modelled as
rationals, message logs and candidate sets as lists in storage order.
-/

namespace RagCore

/-- Error taxonomy of spec section 7: `InvalidParameter` for caller contract
violations, the rest for collaborator failures. -/
inductive CoreError where
  | invalidParameter
  | retrievalUnavailable
  | agentExecutionFailure
  | persistenceFailure
deriving Repr, DecidableEq

/-- Clamp a score into `[0,1]`, as `max(0.0, min(1.0, v))` in
`ChunkResult.validate_score` (`agent/models.py`). -/
def clamp01 (x : ℚ) : ℚ := max 0 (min 1 x)

/-! ### Chunk search results (`agent/models.py`, `ChunkResult`) -/

/-- `ChunkResult` of `agent/models.py`: a chunk search result carrying one
similarity score. -/
structure ChunkResultV where
  chunk_id : String
  document_id : String
  content : String
  score : ℚ
  document_title : String
  document_source : String
deriving Repr, DecidableEq

/-- The `validate_score` field validator of `ChunkResult`
(`agent/models.py` lines 188-192): `return max(0.0, min(1.0, v))`. -/
def validate_score (v : ℚ) : ℚ := max 0 (min 1 v)

/-- Constructing a `ChunkResult` runs the field validator on the raw score;
out-of-range scores are clamped, never rejected (construction is total). -/
def mkChunkResult (chunk_id document_id content : String) (raw : ℚ)
    (document_title document_source : String) : ChunkResultV :=
  { chunk_id := chunk_id
    document_id := document_id
    content := content
    score := validate_score raw
    document_title := document_title
    document_source := document_source }

/-! ### Hybrid ranking

`db_utils.hybrid_search` delegates scoring and ordering to the SQL function
`hybrid_search`; that SQL body is not part of the Python sources, so the
ranking itself is modelled from the spec (section 4.1). -/

/-- A candidate chunk entering the hybrid ranker, with its vector-similarity
score `v` and text-relevance score `t`. -/
structure Candidate where
  chunk_id : ℕ
  v : ℚ
  t : ℚ
deriving Repr, DecidableEq

/-- A row returned by hybrid search, mirroring the columns unpacked in
`db_utils.hybrid_search` (`combined_score`, `vector_similarity`,
`text_similarity`). -/
structure HybridRow where
  chunk_id : ℕ
  vector_similarity : ℚ
  text_similarity : ℚ
  combined_score : ℚ
deriving Repr, DecidableEq

/-- Modelled from the spec: the output ordering of the hybrid ranker
(section 4.1) — descending by combined score, ties broken by descending
vector similarity, then by chunk identifier. `RankLE a b` means `a` may
come before `b`. -/
def RankLE (a b : HybridRow) : Prop :=
  b.combined_score < a.combined_score ∨
    (a.combined_score = b.combined_score ∧
      (b.vector_similarity < a.vector_similarity ∨
        (a.vector_similarity = b.vector_similarity ∧ a.chunk_id ≤ b.chunk_id)))

instance : DecidableRel RankLE := fun a b => by
  unfold RankLE
  exact inferInstance

instance : IsTotal HybridRow RankLE := by
  constructor
  intro a b
  unfold RankLE
  rcases lt_trichotomy a.combined_score b.combined_score with h | h | h
  · right; left; exact h
  · rcases lt_trichotomy a.vector_similarity b.vector_similarity with h2 | h2 | h2
    · right; right; exact ⟨h.symm, Or.inl h2⟩
    · rcases Nat.le_total a.chunk_id b.chunk_id with h3 | h3
      · left; right; exact ⟨h, Or.inr ⟨h2, h3⟩⟩
      · right; right; exact ⟨h.symm, Or.inr ⟨h2.symm, h3⟩⟩
    · left; right; exact ⟨h, Or.inl h2⟩
  · left; left; exact h

instance : IsTrans HybridRow RankLE := by
  constructor
  intro a b c hab hbc
  unfold RankLE at *
  rcases hab with h1 | ⟨h1e, h1r⟩
  · rcases hbc with h2 | ⟨h2e, _⟩
    · exact Or.inl (lt_trans h2 h1)
    · exact Or.inl (h2e ▸ h1)
  · rcases hbc with h2 | ⟨h2e, h2r⟩
    · exact Or.inl (h1e ▸ h2)
    · refine Or.inr ⟨h1e.trans h2e, ?_⟩
      rcases h1r with h1v | ⟨h1ve, h1id⟩
      · rcases h2r with h2v | ⟨h2ve, _⟩
        · exact Or.inl (lt_trans h2v h1v)
        · exact Or.inl (h2ve ▸ h1v)
      · rcases h2r with h2v | ⟨h2ve, h2id⟩
        · exact Or.inl (h1ve ▸ h2v)
        · exact Or.inr ⟨h1ve.trans h2ve, le_trans h1id h2id⟩

/-- Modelled from the spec: the combined score of one candidate,
`(1 - text_weight) * v + text_weight * t` clamped to `[0,1]`
(spec section 4.1). -/
def hybridRow (w : ℚ) (c : Candidate) : HybridRow :=
  { chunk_id := c.chunk_id
    vector_similarity := c.v
    text_similarity := c.t
    combined_score := clamp01 ((1 - w) * c.v + w * c.t) }

/-- Modelled from the spec: the hybrid ranker (spec section 4.1) — the SQL
`hybrid_search` function called by `db_utils.hybrid_search` is absent from
the Python sources.  Validates `text_weight ∈ [0,1]` (`InvalidParameter`
otherwise), scores every candidate and sorts by the ranking order. -/
def hybridRank (w : ℚ) (cands : List Candidate) :
    Except CoreError (List HybridRow) :=
  if 0 ≤ w ∧ w ≤ 1 then
    .ok (List.insertionSort RankLE (cands.map (hybridRow w)))
  else
    .error .invalidParameter

/-- Modelled from the spec: hybrid search returns at most `limit` rows, the
best-ranked first (spec section 4.1 and 4.2). -/
def hybridSearchModel (cands : List Candidate) (limit : ℕ) (w : ℚ) :
    Except CoreError (List HybridRow) :=
  (hybridRank w cands).map (fun rows => rows.take limit)

/-- `SearchRequest` of `agent/models.py`: `limit: int = Field(default=10,
ge=1, le=50)`; a value outside `[1,50]` fails validation, which the spec
labels `InvalidParameter`. -/
structure SearchRequestV where
  query : String
  limit : ℕ
deriving Repr, DecidableEq

/-- Request validation for `SearchRequest` (`agent/models.py` line 60). -/
def mkSearchRequest (query : String) (limit : ℤ) :
    Except CoreError SearchRequestV :=
  if 1 ≤ limit ∧ limit ≤ 50 then .ok ⟨query, limit.toNat⟩
  else .error .invalidParameter

/-- Which failures the caller may retry (spec section 7): only
`RetrievalUnavailable`. -/
def retriable : CoreError → Bool
  | .retrievalUnavailable => true
  | _ => false

/-- Modelled from the spec: the gateway-boundary retry policy (spec
sections 4.1 and 7) — a failed call is retried once with backoff only when
its failure is retryable; `InvalidParameter` is never retried.  Returns the
final result together with the number of attempts made. -/
def callWithRetryOnce {α : Type} (f : ℕ → Except CoreError α) :
    Except CoreError α × ℕ :=
  match f 0 with
  | .error e => if retriable e then (f 1, 2) else (.error e, 1)
  | .ok a => (.ok a, 1)

instance {ε α : Type} [DecidableEq ε] [DecidableEq α] :
    DecidableEq (Except ε α) := fun x y =>
  match x, y with
  | .error e, .error f =>
    if h : e = f then .isTrue (by rw [h])
    else .isFalse (fun hc => by cases hc; exact h rfl)
  | .ok a, .ok b =>
    if h : a = b then .isTrue (by rw [h])
    else .isFalse (fun hc => by cases hc; exact h rfl)
  | .error _, .ok _ => .isFalse (fun hc => by cases hc)
  | .ok _, .error _ => .isFalse (fun hc => by cases hc)

/-- The three-candidate scenario of spec section 8. -/
def demoCands : List Candidate :=
  [⟨1, 9/10, 1/10⟩, ⟨2, 1/2, 4/5⟩, ⟨3, 1/5, 1/5⟩]

/-- C1: for every hybrid search call with a valid weight, each returned
chunk's combined score equals `(1 - text_weight) * v + text_weight * t`
clamped to `[0,1]`, and the returned list is ordered descending by combined
score, ties broken by descending `v`, then by chunk identifier. -/
theorem hybrid_search_scoring_and_order (cands : List Candidate)
    (limit : ℕ) (w : ℚ) (h0 : 0 ≤ w) (h1 : w ≤ 1) :
    ∃ rows, hybridSearchModel cands limit w = .ok rows ∧
      (∀ r ∈ rows, r.combined_score =
        clamp01 ((1 - w) * r.vector_similarity + w * r.text_similarity)) ∧
      rows.Pairwise RankLE := by
  refine ⟨(List.insertionSort RankLE (cands.map (hybridRow w))).take limit,
    ?_, ?_, ?_⟩
  · simp [hybridSearchModel, hybridRank, h0, h1, Except.map]
  · intro r hr
    have hr1 : r ∈ List.insertionSort RankLE (cands.map (hybridRow w)) :=
      List.mem_of_mem_take hr
    have hr2 : r ∈ cands.map (hybridRow w) :=
      (List.perm_insertionSort RankLE _).mem_iff.mp hr1
    rcases List.mem_map.mp hr2 with ⟨c, _, rfl⟩
    rfl
  · exact List.Pairwise.sublist (List.take_sublist _ _)
      (List.sorted_insertionSort RankLE (cands.map (hybridRow w)))

/-- Witness for C1 at the spec's three-candidate scenario with
`text_weight = 0.3`. -/
theorem hybrid_search_scoring_and_order_witness :
    (0 : ℚ) ≤ 3/10 ∧ (3/10 : ℚ) ≤ 1 ∧
    ∃ rows, hybridSearchModel demoCands 10 (3/10) = .ok rows ∧
      (∀ r ∈ rows, r.combined_score =
        clamp01 ((1 - 3/10) * r.vector_similarity
          + 3/10 * r.text_similarity)) ∧
      rows.Pairwise RankLE :=
  ⟨by norm_num, by norm_num,
    hybrid_search_scoring_and_order demoCands 10 (3/10)
      (by norm_num) (by norm_num)⟩

/-- C7: the returned result list is never longer than the requested limit,
and a requested limit of zero or below fails `SearchRequest` validation with
`InvalidParameter`. -/
theorem search_limit_respected :
    (∀ (q : String) (limit : ℤ), limit ≤ 0 →
        mkSearchRequest q limit = .error .invalidParameter) ∧
    (∀ (cands : List Candidate) (w : ℚ) (limit : ℕ)
        (rows : List HybridRow),
        hybridSearchModel cands limit w = .ok rows →
          rows.length ≤ limit) := by
  constructor
  · intro q limit h
    have : ¬ (1 ≤ limit ∧ limit ≤ 50) := by omega
    simp [mkSearchRequest, this]
  · intro cands w limit rows h
    unfold hybridSearchModel hybridRank at h
    by_cases hw : 0 ≤ w ∧ w ≤ 1
    · rw [if_pos hw] at h
      simp [Except.map] at h
      subst h
      exact List.length_take_le limit _
    · rw [if_neg hw] at h
      simp [Except.map] at h

/-- Witness for C7: a zero limit is rejected, and a concrete search with
limit 2 returns at most 2 rows. -/
theorem search_limit_respected_witness :
    mkSearchRequest "acme" 0 = .error .invalidParameter ∧
    ([] : List HybridRow).length ≤ 2 :=
  ⟨search_limit_respected.1 "acme" 0 (by decide),
    search_limit_respected.2 [] 0 2 []
      (by norm_num [hybridSearchModel, hybridRank, Except.map,
        List.insertionSort])⟩

/-- C8: calling hybrid search with a `text_weight` outside `[0,1]` yields
`InvalidParameter`, the call is made exactly once (never retried) and no
results are returned. -/
theorem hybrid_invalid_weight_rejected (cands : List Candidate) (w : ℚ)
    (h : w < 0 ∨ 1 < w) :
    callWithRetryOnce (fun _ => hybridRank w cands) =
      (.error .invalidParameter, 1) := by
  have hw : ¬ (0 ≤ w ∧ w ≤ 1) := by
    rcases h with h | h
    · exact fun hc => absurd hc.1 (not_le.mpr h)
    · exact fun hc => absurd hc.2 (not_le.mpr h)
  simp [callWithRetryOnce, hybridRank, hw, retriable]

/-- Witness for C8 at `text_weight = 2`. -/
theorem hybrid_invalid_weight_rejected_witness :
    ((2 : ℚ) < 0 ∨ 1 < (2 : ℚ)) ∧
    callWithRetryOnce (fun _ => hybridRank 2 demoCands) =
      (.error .invalidParameter, 1) :=
  ⟨Or.inr (by norm_num),
    hybrid_invalid_weight_rejected demoCands 2 (Or.inr (by norm_num))⟩

/-- C9: every score carried in a returned chunk result lies in `[0,1]`, and
equals `max(0, min(1, raw))` for the raw score `raw` it was built from —
out-of-range scores are clamped by the validator, not rejected (the
constructor is total). -/
theorem chunk_score_clamped (cid did content dt ds : String) (raw : ℚ) :
    0 ≤ (mkChunkResult cid did content raw dt ds).score ∧
    (mkChunkResult cid did content raw dt ds).score ≤ 1 ∧
    (mkChunkResult cid did content raw dt ds).score = max 0 (min 1 raw) := by
  refine ⟨le_max_left 0 _, ?_, rfl⟩
  exact max_le (by norm_num) (min_le_left 1 raw)

/-! ### Conversation context (`agent/db_utils.py` `get_session_messages`,
`agent/api.py` `get_conversation_context` / `execute_agent`) -/

/-- One row of the `messages` table, in creation order within its session. -/
structure MsgRow where
  role : String
  content : String
deriving Repr, DecidableEq

/-- `get_session_messages` (`agent/db_utils.py` lines 228-269): messages of
a session ordered ascending by creation time (`ORDER BY created_at`); the
`LIMIT {limit}` clause is appended only when `limit` is truthy, so it keeps
the first `limit` rows of that ascending order — the oldest ones. -/
def get_session_messages (log : List MsgRow) (limit : Option ℕ) :
    List MsgRow :=
  match limit with
  | none => log
  | some n => if n = 0 then log else log.take n

/-- `get_conversation_context` (`agent/api.py` lines 184-206): fetch with
`limit=max_messages` (default 10) and project role/content. -/
def get_conversation_context (log : List MsgRow) (max_messages : ℕ) :
    List MsgRow :=
  get_session_messages log (some max_messages)

/-- The rendering in `execute_agent` (`agent/api.py` lines 352-362):
`context[-6:]`, each line prefixed with its role. -/
def renderedContext (log : List MsgRow) : List String :=
  let context := get_conversation_context log 10
  (context.drop (context.length - 6)).map
    (fun m => m.role ++ ": " ++ m.content)

/-- What C2 claims the rendering is: the six most recent messages of the
session, oldest-first, role-prefixed. -/
def mostRecentSix (log : List MsgRow) : List String :=
  (log.drop (log.length - 6)).map (fun m => m.role ++ ": " ++ m.content)

/-- A session log of 50 messages `m0..m49` with alternating roles. -/
def log50 : List MsgRow :=
  (List.range 50).map
    (fun i => ⟨if i % 2 = 0 then "user" else "assistant", "m" ++ toString i⟩)

/-- C2 evaluated at the failing input: on a 50-message session the rendered
context is `m4..m9` — the last six of the ten *oldest* messages, because
`get_session_messages` orders ascending and `LIMIT 10` keeps the head — and
not the six most recent messages `m44..m49` the claim (and the function's
own docstring, "Get recent conversation context") requires. -/
theorem context_window_bug :
    renderedContext log50 =
      ["user: m4", "assistant: m5", "user: m6", "assistant: m7",
        "user: m8", "assistant: m9"] ∧
    renderedContext log50 ≠ mostRecentSix log50 := by
  constructor
  · rfl
  · decide

/-! ### Turn persistence (`agent/api.py` `execute_agent`,
`generate_stream`) -/

/-- The error text prepended by `execute_agent` and used as the degraded
assistant message (`agent/api.py` line 386). -/
def errorIntro : String :=
  "I encountered an error while processing your request: "

/-- `execute_agent` with `save_conversation=True` (`agent/api.py` lines
316-396): the messages appended to the session log for one turn, as a
function of the agent outcome.  On success `save_conversation_turn` writes
the user message then the assistant response; when the agent raises, the
`except` block writes the user message then an error-description assistant
message. -/
def execute_agent_append (message : String)
    (outcome : Except String String) : List MsgRow :=
  match outcome with
  | .ok resp => [⟨"user", message⟩, ⟨"assistant", resp⟩]
  | .error e => [⟨"user", message⟩, ⟨"assistant", errorIntro ++ e⟩]

/-- Outcome of the streamed agent run inside `generate_stream`: either it
completes after emitting text deltas (with some number of tool calls), or
it raises mid-stream after emitting a prefix of deltas. -/
inductive StreamRun where
  | success (deltas : List String) (toolCount : ℕ)
  | failure (deltas : List String) (err : String)
deriving Repr, DecidableEq

/-- `generate_stream` (`agent/api.py` lines 464-551): the messages appended
to the session log during a streamed turn.  The user message is saved
before streaming starts (line 488); the assistant message with the
accumulated `full_response` is saved only after streaming completes (line
533); the `except` handler (lines 545-551) yields an error event and
persists nothing. -/
def generate_stream_append (message : String) (run : StreamRun) :
    List MsgRow :=
  match run with
  | .success deltas _ => [⟨"user", message⟩, ⟨"assistant", String.join deltas⟩]
  | .failure _ _ => [⟨"user", message⟩]

/-- C3 refuted: a streamed turn that fails mid-stream after accumulating
the partial response "partial answer" appends only the user message — no
assistant message is persisted at all, so the partial response is lost. -/
theorem turn_persistence_counterexample :
    generate_stream_append "hi" (.failure ["partial answer"] "boom") =
      [⟨"user", "hi"⟩] ∧
    ∀ m ∈ generate_stream_append "hi" (.failure ["partial answer"] "boom"),
      m.role ≠ "assistant" := by
  refine ⟨rfl, ?_⟩
  decide

/-- C3 as amended: a non-streamed turn appends exactly one user message
then one assistant message, in that order, even when the agent raises (the
assistant content then being the error description); a streamed turn
appends the user message first and the assistant message only when the
stream completes — a streamed turn that fails mid-stream appends only the
user message and discards the partial response. -/
theorem turn_persistence_amended :
    (∀ (message : String) (outcome : Except String String),
      (execute_agent_append message outcome).map MsgRow.role =
        ["user", "assistant"] ∧
      (execute_agent_append message outcome).head? =
        some ⟨"user", message⟩) ∧
    (∀ (message e : String),
      execute_agent_append message (.error e) =
        [⟨"user", message⟩, ⟨"assistant", errorIntro ++ e⟩]) ∧
    (∀ (message : String) (deltas : List String) (tc : ℕ),
      generate_stream_append message (.success deltas tc) =
        [⟨"user", message⟩, ⟨"assistant", String.join deltas⟩]) ∧
    (∀ (message : String) (deltas : List String) (err : String),
      generate_stream_append message (.failure deltas err) =
        [⟨"user", message⟩]) := by
  refine ⟨?_, fun _ _ => rfl, fun _ _ _ => rfl, fun _ _ _ => rfl⟩
  intro message outcome
  cases outcome <;> exact ⟨rfl, rfl⟩

/-! ### Streaming event contract (`agent/api.py` `generate_stream`) -/

/-- The typed Server-Sent-Events emitted by `generate_stream`: `session`,
`text`, `tools` (carrying the tool-call list, modelled by its length),
`end` (modelled as `done`) and `error`. -/
inductive SEvent where
  | session (sid : String)
  | text (content : String)
  | tools (toolCount : ℕ)
  | done
  | errorEv (msg : String)
deriving Repr, DecidableEq

/-- How far a streamed turn gets before raising, if at all: a failure while
building context or saving the user message (before any text), a failure
of the agent mid-stream, a failure while saving the assistant message
(after the optional `tools` event), or completion. -/
inductive StreamScript where
  | failEarly (err : String)
  | failMid (deltas : List String) (err : String)
  | failSave (deltas : List String) (toolCount : ℕ) (err : String)
  | complete (deltas : List String) (toolCount : ℕ)
deriving Repr, DecidableEq

/-- The `tools` event is yielded only when `tools_used` is nonempty
(`agent/api.py` line 521). -/
def toolsEvents (toolCount : ℕ) : List SEvent :=
  if toolCount = 0 then [] else [.tools toolCount]

/-- `generate_stream` (`agent/api.py` lines 464-551) as an event trace:
the `session` event is the first statement of the `try` block; text deltas
follow; the `tools` event (if any) precedes the assistant save; `end`
closes a successful stream; any exception inside the `try` yields a single
`error` event and the generator stops. -/
def generate_stream_events (sid : String) (s : StreamScript) : List SEvent :=
  match s with
  | .failEarly err =>
    [.session sid, .errorEv ("Stream error: " ++ err)]
  | .failMid deltas err =>
    .session sid :: (deltas.map SEvent.text ++
      [.errorEv ("Stream error: " ++ err)])
  | .failSave deltas tc err =>
    .session sid :: (deltas.map SEvent.text ++ (toolsEvents tc ++
      [.errorEv ("Stream error: " ++ err)]))
  | .complete deltas tc =>
    .session sid :: (deltas.map SEvent.text ++ (toolsEvents tc ++ [.done]))

/-- Recognizers for the event classes. -/
def isSessionEv : SEvent → Bool
  | .session _ => true
  | _ => false

def isToolsEv : SEvent → Bool
  | .tools _ => true
  | _ => false

def isTerminalEv : SEvent → Bool
  | .done => true
  | .errorEv _ => true
  | _ => false

theorem getLast?_shape {α : Type} (x : α) (l : List α) (t : α) :
    (x :: (l ++ [t])).getLast? = some t := by
  rw [← List.cons_append]
  exact List.getLast?_concat _

/-- C4: every streamed turn's event sequence is one `session` event, then
zero or more `text` events, then zero or one `tools` event, then exactly
one terminal event (`end` or `error`); the terminal event is last, and
`session` and terminal events occur exactly once. -/
theorem streaming_contract (sid : String) (s : StreamScript) :
    ∃ (deltas : List String) (mid : List SEvent) (term : SEvent),
      generate_stream_events sid s =
        .session sid :: (deltas.map SEvent.text ++ (mid ++ [term])) ∧
      (mid = [] ∨ ∃ n, mid = [SEvent.tools n]) ∧
      (term = .done ∨ ∃ m, term = .errorEv m) ∧
      (generate_stream_events sid s).countP isSessionEv = 1 ∧
      (generate_stream_events sid s).countP isTerminalEv = 1 ∧
      (generate_stream_events sid s).countP isToolsEv ≤ 1 ∧
      (generate_stream_events sid s).getLast? = some term := by
  cases s with
  | failEarly err =>
    refine ⟨[], [], .errorEv ("Stream error: " ++ err), rfl, Or.inl rfl,
      Or.inr ⟨_, rfl⟩, ?_, ?_, ?_, rfl⟩ <;>
      simp [generate_stream_events, isSessionEv, isTerminalEv, isToolsEv,
        List.countP_cons]
  | failMid deltas err =>
    refine ⟨deltas, [], .errorEv ("Stream error: " ++ err),
      by simp [generate_stream_events],
      Or.inl rfl, Or.inr ⟨_, rfl⟩, ?_, ?_, ?_, ?_⟩
    · simp [generate_stream_events, isSessionEv, List.countP_cons,
        List.countP_append, List.countP_map, Function.comp_def]
    · simp [generate_stream_events, isTerminalEv, List.countP_cons,
        List.countP_append, List.countP_map, Function.comp_def]
    · simp [generate_stream_events, isToolsEv, List.countP_cons,
        List.countP_append, List.countP_map, Function.comp_def]
    · exact getLast?_shape _ _ _
  | failSave deltas tc err =>
    by_cases htc : tc = 0
    · refine ⟨deltas, [], .errorEv ("Stream error: " ++ err),
        by simp [generate_stream_events, toolsEvents, htc],
        Or.inl rfl, Or.inr ⟨_, rfl⟩, ?_, ?_, ?_, ?_⟩
      · simp [generate_stream_events, toolsEvents, htc, isSessionEv,
          List.countP_cons, List.countP_append, List.countP_map,
          Function.comp_def]
      · simp [generate_stream_events, toolsEvents, htc, isTerminalEv,
          List.countP_cons, List.countP_append, List.countP_map,
          Function.comp_def]
      · simp [generate_stream_events, toolsEvents, htc, isToolsEv,
          List.countP_cons, List.countP_append, List.countP_map,
          Function.comp_def]
      · rw [generate_stream_events]
        simp only [toolsEvents, htc, if_pos, List.nil_append]
        exact getLast?_shape _ _ _
    · refine ⟨deltas, [.tools tc], .errorEv ("Stream error: " ++ err),
        by simp [generate_stream_events, toolsEvents, htc],
        Or.inr ⟨tc, rfl⟩, Or.inr ⟨_, rfl⟩, ?_, ?_, ?_, ?_⟩
      · simp [generate_stream_events, toolsEvents, htc, isSessionEv,
          List.countP_cons, List.countP_append, List.countP_map,
          Function.comp_def]
      · simp [generate_stream_events, toolsEvents, htc, isTerminalEv,
          List.countP_cons, List.countP_append, List.countP_map,
          Function.comp_def]
      · simp [generate_stream_events, toolsEvents, htc, isToolsEv,
          List.countP_cons, List.countP_append, List.countP_map,
          Function.comp_def]
      · rw [generate_stream_events]
        simp only [toolsEvents, htc, if_neg, ite_false]
        rw [← List.append_assoc]
        exact getLast?_shape _ _ _
  | complete deltas tc =>
    by_cases htc : tc = 0
    · refine ⟨deltas, [], .done,
        by simp [generate_stream_events, toolsEvents, htc],
        Or.inl rfl, Or.inl rfl, ?_, ?_, ?_, ?_⟩
      · simp [generate_stream_events, toolsEvents, htc, isSessionEv,
          List.countP_cons, List.countP_append, List.countP_map,
          Function.comp_def]
      · simp [generate_stream_events, toolsEvents, htc, isTerminalEv,
          List.countP_cons, List.countP_append, List.countP_map,
          Function.comp_def]
      · simp [generate_stream_events, toolsEvents, htc, isToolsEv,
          List.countP_cons, List.countP_append, List.countP_map,
          Function.comp_def]
      · rw [generate_stream_events]
        simp only [toolsEvents, htc, if_pos, List.nil_append]
        exact getLast?_shape _ _ _
    · refine ⟨deltas, [.tools tc], .done,
        by simp [generate_stream_events, toolsEvents, htc],
        Or.inr ⟨tc, rfl⟩, Or.inl rfl, ?_, ?_, ?_, ?_⟩
      · simp [generate_stream_events, toolsEvents, htc, isSessionEv,
          List.countP_cons, List.countP_append, List.countP_map,
          Function.comp_def]
      · simp [generate_stream_events, toolsEvents, htc, isTerminalEv,
          List.countP_cons, List.countP_append, List.countP_map,
          Function.comp_def]
      · simp [generate_stream_events, toolsEvents, htc, isToolsEv,
          List.countP_cons, List.countP_append, List.countP_map,
          Function.comp_def]
      · rw [generate_stream_events]
        simp only [toolsEvents, htc, if_neg, ite_false]
        rw [← List.append_assoc]
        exact getLast?_shape _ _ _

/-! ### HTTP error propagation (`agent/api.py` `chat`, `search_vector`) -/

/-- An HTTP response: status code and body text. -/
structure HttpReply where
  status : ℕ
  body : String
deriving Repr, DecidableEq

/-- The `/chat` endpoint (`agent/api.py` lines 430-454) as a function of
its collaborator outcomes.  A failure while resolving the session escapes
`get_or_create_session` and hits the endpoint's catch-all, which raises
`HTTPException(status_code=500)`; a failure of the agent run is absorbed
inside `execute_agent` into a normal response whose message text describes
the error. -/
def chatEndpoint (sessionOutcome : Except String String)
    (agentOutcome : Except String String) : HttpReply :=
  match sessionOutcome with
  | .error e => ⟨500, e⟩
  | .ok _ =>
    match agentOutcome with
    | .ok resp => ⟨200, resp⟩
    | .error e => ⟨200, errorIntro ++ e⟩

/-- The `/search/vector` endpoint (`agent/api.py` lines 568-592): request
validation (`SearchRequest`, `agent/models.py`) rejects a bad limit with a
4xx validation error before the handler runs; any failure inside the
handler is converted by the catch-all into `HTTPException(status_code=500)`. -/
def searchVectorEndpoint (query : String) (limit : ℤ)
    (retrieval : Except String (List ChunkResultV)) : HttpReply :=
  match mkSearchRequest query limit with
  | .error _ => ⟨422, "validation error"⟩
  | .ok _ =>
    match retrieval with
    | .ok results => ⟨200, toString results.length⟩
    | .error e => ⟨500, e⟩

/-- C5 refuted: a retrieval failure on `/search/vector` (not an
`InvalidParameter`) crosses the API boundary as a hard 500 error, not as a
2xx response carrying the error text. -/
theorem error_propagation_counterexample :
    (searchVectorEndpoint "q" 10 (.error "connection refused")).status =
      500 ∧
    ¬ (200 ≤ (searchVectorEndpoint "q" 10
          (.error "connection refused")).status ∧
        (searchVectorEndpoint "q" 10
          (.error "connection refused")).status ≤ 299) ∧
    ¬ (400 ≤ (searchVectorEndpoint "q" 10
          (.error "connection refused")).status ∧
        (searchVectorEndpoint "q" 10
          (.error "connection refused")).status ≤ 499) := by
  refine ⟨rfl, ?_, ?_⟩ <;> decide

/-- C5 as amended: invalid parameters are rejected with a 4xx validation
error, and an agent-execution failure inside a chat turn is absorbed into
a 2xx response whose assistant message text describes the error; but a
retrieval failure on the direct search endpoints, and a session-resolution
failure on `/chat`, surface as hard HTTP 500 errors rather than 2xx. -/
theorem error_propagation_amended :
    (∀ (q : String) (limit : ℤ) (r : Except String (List ChunkResultV)),
      limit < 1 ∨ 50 < limit →
        searchVectorEndpoint q limit r = ⟨422, "validation error"⟩) ∧
    (∀ (sid e : String),
      chatEndpoint (.ok sid) (.error e) = ⟨200, errorIntro ++ e⟩) ∧
    (∀ (q : String) (limit : ℤ) (e : String), 1 ≤ limit → limit ≤ 50 →
      searchVectorEndpoint q limit (.error e) = ⟨500, e⟩) ∧
    (∀ (e : String) (ao : Except String String),
      chatEndpoint (.error e) ao = ⟨500, e⟩) := by
  refine ⟨?_, fun _ _ => rfl, ?_, fun _ _ => rfl⟩
  · intro q limit r h
    have hcond : ¬ (1 ≤ limit ∧ limit ≤ 50) := by omega
    simp [searchVectorEndpoint, mkSearchRequest, hcond]
  · intro q limit e h1 h2
    have hok : mkSearchRequest q limit = .ok ⟨q, limit.toNat⟩ := by
      rw [mkSearchRequest, if_pos]
      exact ⟨h1, h2⟩
    simp [searchVectorEndpoint, hok]

/-- Witness for C5's amended statement at concrete inputs. -/
theorem error_propagation_amended_witness :
    searchVectorEndpoint "q" 0 (.ok []) = ⟨422, "validation error"⟩ ∧
    searchVectorEndpoint "q" 10 (.error "db down") = ⟨500, "db down"⟩ :=
  ⟨error_propagation_amended.1 "q" 0 (.ok []) (Or.inl (by decide)),
    error_propagation_amended.2.2.1 "q" 10 "db down" (by decide) (by decide)⟩

/-! ### Session resolution (`agent/api.py` `get_or_create_session`,
`agent/db_utils.py` `get_session`) -/

/-- One row of the `sessions` table. -/
structure SessionRow where
  sid : String
  expires_at : Option ℚ
deriving Repr, DecidableEq

/-- `get_session` (`agent/db_utils.py` lines 120-157): look up a session by
id, returning it only when `expires_at IS NULL OR expires_at >
CURRENT_TIMESTAMP` — expired or unknown sessions yield `None`. -/
def getSessionRow (store : List SessionRow) (sid : String) (now : ℚ) :
    Option SessionRow :=
  match store.find? (fun r => r.sid == sid) with
  | none => none
  | some r =>
    match r.expires_at with
    | none => some r
    | some e => if now < e then some r else none

/-- `get_or_create_session` (`agent/api.py` lines 169-181): reuse the
requested session when it is set (Python truthiness: a non-empty string)
and `get_session` finds it unexpired; otherwise create a new session with a
fresh id. -/
def getOrCreateSession (store : List SessionRow) (reqSid : Option String)
    (fresh : String) (freshExpiry : Option ℚ) (now : ℚ) :
    String × List SessionRow :=
  match reqSid with
  | some sid =>
    if sid = "" then (fresh, store ++ [⟨fresh, freshExpiry⟩])
    else
      match getSessionRow store sid now with
      | some _ => (sid, store)
      | none => (fresh, store ++ [⟨fresh, freshExpiry⟩])
  | none => (fresh, store ++ [⟨fresh, freshExpiry⟩])

/-- A message row tagged with the session it is appended to. -/
structure TaggedMsg where
  sid : String
  role : String
  content : String
deriving Repr, DecidableEq

/-- The `/chat` turn (`agent/api.py` lines 430-454): resolve the session
with `get_or_create_session`, then persist the turn's messages under the
resolved session id. -/
def chatTurnMessages (store : List SessionRow) (reqSid : Option String)
    (fresh : String) (freshExpiry : Option ℚ) (now : ℚ) (message : String)
    (outcome : Except String String) : List TaggedMsg :=
  let rid := (getOrCreateSession store reqSid fresh freshExpiry now).1
  (execute_agent_append message outcome).map
    (fun m => ⟨rid, m.role, m.content⟩)

/-- C6: a valid, non-expired `session_id` is reused — the same id is
returned, no session is created, and the turn's messages are appended
under that id; an expired or unknown `session_id` leads to a freshly
created session whose id differs from the requested one. -/
theorem session_reuse (store : List SessionRow) (sid fresh : String)
    (fe : Option ℚ) (now : ℚ) (message : String)
    (outcome : Except String String) :
    ((getSessionRow store sid now).isSome = true → sid ≠ "" →
      (getOrCreateSession store (some sid) fresh fe now).1 = sid ∧
      (getOrCreateSession store (some sid) fresh fe now).2 = store ∧
      ∀ m ∈ chatTurnMessages store (some sid) fresh fe now message outcome,
        m.sid = sid) ∧
    (getSessionRow store sid now = none → fresh ≠ sid →
      (getOrCreateSession store (some sid) fresh fe now).1 = fresh ∧
      (getOrCreateSession store (some sid) fresh fe now).1 ≠ sid ∧
      (getOrCreateSession store (some sid) fresh fe now).2 =
        store ++ [⟨fresh, fe⟩]) := by
  constructor
  · intro hsome hne
    obtain ⟨r, hr⟩ := Option.isSome_iff_exists.mp hsome
    have hres : getOrCreateSession store (some sid) fresh fe now =
        (sid, store) := by
      simp [getOrCreateSession, hne, hr]
    refine ⟨by rw [hres], by rw [hres], ?_⟩
    intro m hm
    simp only [chatTurnMessages, hres] at hm
    rcases List.mem_map.mp hm with ⟨m0, _, rfl⟩
    rfl
  · intro hnone hne
    by_cases hs : sid = ""
    · have hres : getOrCreateSession store (some sid) fresh fe now =
          (fresh, store ++ [⟨fresh, fe⟩]) := by
        simp [getOrCreateSession, hs]
      exact ⟨by rw [hres], by rw [hres]; exact hne, by rw [hres]⟩
    · have hres : getOrCreateSession store (some sid) fresh fe now =
          (fresh, store ++ [⟨fresh, fe⟩]) := by
        simp [getOrCreateSession, hs, hnone]
      exact ⟨by rw [hres], by rw [hres]; exact hne, by rw [hres]⟩

/-- Witness for C6: a session valid at time 50 and expired at time 200. -/
theorem session_reuse_witness :
    ((getOrCreateSession [⟨"s1", some 100⟩] (some "s1") "s2" (some 260)
        50).1 = "s1" ∧
      (getOrCreateSession [⟨"s1", some 100⟩] (some "s1") "s2" (some 260)
        50).2 = [⟨"s1", some 100⟩]) ∧
    ((getOrCreateSession [⟨"s1", some 100⟩] (some "s1") "s2" (some 260)
        200).1 = "s2" ∧
      (getOrCreateSession [⟨"s1", some 100⟩] (some "s1") "s2" (some 260)
        200).1 ≠ "s1") := by
  have h1 := (session_reuse [⟨"s1", some 100⟩] "s1" "s2" (some 260) 50
    "hello" (.ok "answer")).1 (by norm_num [getSessionRow]) (by decide)
  have h2 := (session_reuse [⟨"s1", some 100⟩] "s1" "s2" (some 260) 200
    "hello" (.ok "answer")).2 (by norm_num [getSessionRow]) (by decide)
  exact ⟨⟨h1.1, h1.2.1⟩, ⟨h2.1, h2.2.1⟩⟩

/-! ### Rate limiting (`agent/security.py` `check_rate_limit`)

The process-wide table maps each identifier to its own timestamp list, and
a call touches only its identifier's entry, so one identifier's list is
modelled on its own. -/

/-- One `check_rate_limit` call (`agent/security.py` lines 109-139) on one
identifier's timestamp list: drop entries with `timestamp <= now - window`,
reject without recording when at least `limit` entries remain, otherwise
record `now` and accept.  Returns the decision and the updated list. -/
def checkRateLimit (limit : ℕ) (window : ℚ) (store : List ℚ) (now : ℚ) :
    Bool × List ℚ :=
  let pruned := store.filter (fun t => decide (now - window < t))
  if limit ≤ pruned.length then (false, pruned)
  else (true, pruned ++ [now])

/-- A sequence of `check_rate_limit` calls for one identifier, starting
from the timestamp list `store`: every call is recorded with its time and
decision. -/
def rateEvents (limit : ℕ) (window : ℚ) : List ℚ → List ℚ →
    List (ℚ × Bool)
  | _store, [] => []
  | store, now :: rest =>
    let r := checkRateLimit limit window store now
    (now, r.1) :: rateEvents limit window r.2 rest

/-- The number of accepted calls whose time falls inside the sliding
window `(T - window, T]`. -/
def acceptedIn (window T : ℚ) (events : List (ℚ × Bool)) : ℕ :=
  events.countP
    (fun p => p.2 && decide (T - window < p.1) && decide (p.1 ≤ T))

theorem rateEvents_map_fst (limit : ℕ) (window : ℚ)
    (store trace : List ℚ) :
    (rateEvents limit window store trace).map Prod.fst = trace := by
  induction trace generalizing store with
  | nil => rfl
  | cons now rest ih => simp [rateEvents, ih]

theorem filter_cutoff_absorb (l : List ℚ) (a b : ℚ) (h : a ≤ b) :
    (l.filter (fun t => decide (a < t))).filter
        (fun t => decide (b < t)) =
      l.filter (fun t => decide (b < t)) := by
  induction l with
  | nil => rfl
  | cons x xs ih =>
    by_cases hb : b < x
    · have ha : a < x := lt_of_le_of_lt h hb
      simp [List.filter_cons, ha, hb, ih]
    · by_cases ha : a < x
      · simp [List.filter_cons, ha, hb, ih]
      · simp [List.filter_cons, ha, hb, ih]

theorem acceptedIn_bound_aux (limit : ℕ) (window : ℚ) :
    ∀ (trace store : List ℚ) (T : ℚ),
      trace.Pairwise (· ≤ ·) →
      1 ≤ acceptedIn window T (rateEvents limit window store trace) →
      acceptedIn window T (rateEvents limit window store trace) +
        (store.filter (fun t => decide (T - window < t))).length ≤
          limit := by
  intro trace
  induction trace with
  | nil =>
    intro store T _ hpos
    simp [rateEvents, acceptedIn] at hpos
  | cons now rest ih =>
    intro store T hsorted hpos
    have hrest : rest.Pairwise (· ≤ ·) :=
      (List.pairwise_cons.mp hsorted).2
    have hlater : ∀ u ∈ rest, now ≤ u :=
      (List.pairwise_cons.mp hsorted).1
    by_cases hfull : limit ≤
        (store.filter (fun t => decide (now - window < t))).length
    · -- rejected call: nothing appended, store pruned
      have hev : rateEvents limit window store (now :: rest) =
          (now, false) :: rateEvents limit window
            (store.filter (fun t => decide (now - window < t))) rest := by
        simp [rateEvents, checkRateLimit, hfull]
      rw [hev] at hpos ⊢
      rw [acceptedIn, List.countP_cons] at hpos ⊢
      simp only [Bool.false_and, Bool.and_eq_true, cond_false] at hpos ⊢
      have hpos' : 1 ≤ acceptedIn window T (rateEvents limit window
          (store.filter (fun t => decide (now - window < t))) rest) := by
        simpa [acceptedIn] using hpos
      -- some accepted call lies in the window, so now ≤ T
      obtain ⟨p, hpmem, hp⟩ := List.countP_pos_iff.mp
        (Nat.lt_of_lt_of_le Nat.zero_lt_one hpos')
      have hpT : p.1 ≤ T := by
        have := (Bool.and_eq_true _ _).mp hp
        exact of_decide_eq_true this.2
      have hnp : now ≤ p.1 := by
        have : p.1 ∈ (rateEvents limit window
            (store.filter (fun t => decide (now - window < t)))
            rest).map Prod.fst := List.mem_map_of_mem Prod.fst hpmem
        rw [rateEvents_map_fst] at this
        exact hlater _ this
      have hnT : now ≤ T := le_trans hnp hpT
      have hfeq := filter_cutoff_absorb store (now - window) (T - window)
        (by linarith)
      have := ih (store.filter (fun t => decide (now - window < t))) T
        hrest hpos'
      rw [hfeq] at this
      simpa [acceptedIn] using this
    · -- accepted call: now is appended
      have hev : rateEvents limit window store (now :: rest) =
          (now, true) :: rateEvents limit window
            (store.filter (fun t => decide (now - window < t)) ++ [now])
            rest := by
        simp [rateEvents, checkRateLimit, hfull]
      rw [hev] at hpos ⊢
      by_cases hin : T - window < now ∧ now ≤ T
      · -- the accepted call itself lies in the window
        have hcnt : acceptedIn window T ((now, true) ::
            rateEvents limit window
              (store.filter (fun t => decide (now - window < t)) ++ [now])
              rest) =
            acceptedIn window T (rateEvents limit window
              (store.filter (fun t => decide (now - window < t)) ++ [now])
              rest) + 1 := by
          rw [acceptedIn, List.countP_cons]
          simp [acceptedIn, hin.1, hin.2]
        rw [hcnt]
        have hfeq := filter_cutoff_absorb store (now - window) (T - window)
          (by linarith [hin.2])
        rcases Nat.eq_zero_or_pos (acceptedIn window T
            (rateEvents limit window
              (store.filter (fun t => decide (now - window < t)) ++ [now])
              rest)) with hz | hge
        · rw [hz]
          have hle1 : (store.filter
              (fun t => decide (T - window < t))).length ≤
              (store.filter
                (fun t => decide (now - window < t))).length := by
            rw [← hfeq]
            exact List.length_filter_le _ _
          omega
        · have := ih
            (store.filter (fun t => decide (now - window < t)) ++ [now]) T
            hrest hge
          rw [List.filter_append] at this
          have hnowf : ([now].filter
              (fun t => decide (T - window < t))) = [now] := by
            simp [List.filter_cons, hin.1]
          rw [hnowf, List.length_append, hfeq] at this
          simp only [List.length_cons, List.length_nil] at this
          omega
      · -- the accepted call lies outside the window
        have hcnt : acceptedIn window T ((now, true) ::
            rateEvents limit window
              (store.filter (fun t => decide (now - window < t)) ++ [now])
              rest) =
            acceptedIn window T (rateEvents limit window
              (store.filter (fun t => decide (now - window < t)) ++ [now])
              rest) := by
          rw [acceptedIn, List.countP_cons]
          have : (decide (T - window < now) && decide (now ≤ T)) = false := by
            rcases Classical.em (T - window < now) with h1 | h1
            · rcases Classical.em (now ≤ T) with h2 | h2
              · exact absurd ⟨h1, h2⟩ hin
              · simp [h2]
            · simp [h1]
          rw [acceptedIn]
          simp only [Bool.true_and]
          rw [this]
          simp
        rw [hcnt] at hpos ⊢
        -- some accepted call lies in the window, so now ≤ T
        obtain ⟨p, hpmem, hp⟩ := List.countP_pos_iff.mp
          (Nat.lt_of_lt_of_le Nat.zero_lt_one hpos)
        have hpT : p.1 ≤ T := by
          have := (Bool.and_eq_true _ _).mp hp
          exact of_decide_eq_true this.2
        have hnp : now ≤ p.1 := by
          have : p.1 ∈ (rateEvents limit window
              (store.filter (fun t => decide (now - window < t)) ++ [now])
              rest).map Prod.fst := List.mem_map_of_mem Prod.fst hpmem
          rw [rateEvents_map_fst] at this
          exact hlater _ this
        have hnT : now ≤ T := le_trans hnp hpT
        have hfeq := filter_cutoff_absorb store (now - window) (T - window)
          (by linarith)
        have := ih
          (store.filter (fun t => decide (now - window < t)) ++ [now]) T
          hrest hpos
        rw [List.filter_append, List.length_append, hfeq] at this
        omega

/-- C10: the rate limiter accepts at most `limit` calls inside any sliding
window of `window` seconds (for chronologically ordered calls starting
from an empty table entry); after every call the stored list for the
identifier holds only timestamps newer than `now - window`; and a rejected
call records nothing — the list is exactly the pruned previous list. -/
theorem check_rate_limit_spec :
    (∀ (limit : ℕ) (window : ℚ) (store : List ℚ) (now t : ℚ),
      0 < window → t ∈ (checkRateLimit limit window store now).2 →
        now - window < t) ∧
    (∀ (limit : ℕ) (window : ℚ) (store : List ℚ) (now : ℚ),
      (checkRateLimit limit window store now).1 = false →
        (checkRateLimit limit window store now).2 =
          store.filter (fun t => decide (now - window < t))) ∧
    (∀ (limit : ℕ) (window : ℚ) (trace : List ℚ) (T : ℚ),
      trace.Pairwise (· ≤ ·) →
        acceptedIn window T (rateEvents limit window [] trace) ≤ limit) := by
  refine ⟨?_, ?_, ?_⟩
  · intro limit window store now t hw hmem
    rw [checkRateLimit] at hmem
    by_cases hfull : limit ≤
        (store.filter (fun t => decide (now - window < t))).length
    · rw [if_pos hfull] at hmem
      have hmem' : t ∈ store.filter (fun t => decide (now - window < t)) :=
        hmem
      exact of_decide_eq_true (List.mem_filter.mp hmem').2
    · rw [if_neg hfull] at hmem
      have hmem' : t ∈ store.filter (fun t => decide (now - window < t))
          ++ [now] := hmem
      rcases List.mem_append.mp hmem' with hmem2 | hmem2
      · exact of_decide_eq_true (List.mem_filter.mp hmem2).2
      · rcases List.mem_singleton.mp hmem2 with rfl
        linarith
  · intro limit window store now hfalse
    rw [checkRateLimit] at hfalse ⊢
    by_cases hfull : limit ≤
        (store.filter (fun t => decide (now - window < t))).length
    · rw [if_pos hfull]
    · rw [if_neg hfull] at hfalse
      simp at hfalse
  · intro limit window trace T hsorted
    rcases Nat.eq_zero_or_pos
      (acceptedIn window T (rateEvents limit window [] trace)) with hz | hge
    · omega
    · have := acceptedIn_bound_aux limit window trace [] T hsorted hge
      simpa using this

/-- Witness for C10: two calls at time 0 with limit 1 and window 60 — the
second is rejected, nothing is recorded for it, every stored timestamp is
fresh, and no window ever holds more than one accepted call. -/
theorem check_rate_limit_spec_witness :
    ((0 : ℚ) - 60 < 0) ∧
    (checkRateLimit 1 60 [0] 0).2 =
      [0].filter (fun t => decide ((0 : ℚ) - 60 < t)) ∧
    acceptedIn 60 0 (rateEvents 1 60 [] [0, 0]) ≤ 1 := by
  refine ⟨?_, ?_, ?_⟩
  · exact check_rate_limit_spec.1 1 60 [] 0 0 (by norm_num)
      (by norm_num [checkRateLimit, List.filter_cons])
  · exact check_rate_limit_spec.2.1 1 60 [0] 0
      (by norm_num [checkRateLimit, List.filter_cons])
  · exact check_rate_limit_spec.2.2 1 60 [0, 0] 0
      (by norm_num [List.pairwise_cons])

end RagCore
